import Mathlib

/-!
Shallow embedding of serve-locally (index.js): a request-to-file resolver
that walks a URL path's segments through a directory tree and picks the
file whose name-encoded query string best matches the request's query
parameters.

Modelling conventions:
* The filesystem is a rose tree (`FSNode`); the entry list of a directory
  is in `fs.readdirSync` enumeration order.
* JavaScript strings are Lean `String`s; all splitting primitives are
  written over `List Char` so that they mirror `String.prototype.split`
  and friends and reduce well in the kernel.
* `queryParams` is `Option (List (String × String))`: `none` models the
  JavaScript `undefined`/`null` argument (falsy), `some []` models a
  present-but-empty object such as an Express `req.query` of `{}`
  (truthy).  Query maps are association lists with unique keys in
  property-enumeration order, as produced by `querystring.parse`.
* `Node`'s `path.join` is modelled for already-normalised arguments
  (names without separators, no `..`): `path.join(a, b)` is `b` when `a`
  is `"."` or `""` and `a ++ "/" ++ b` otherwise.  `path.parse` is
  modelled by splitting at the last `/` (dir/base) and, inside the base,
  at the last `.` not in leading position (name/ext), which is Node's
  rule for these inputs.  `querystring.parse` is modelled without
  percent-decoding (the repository's filenames use none).
* `Array.prototype.sort((a, b) => a.count < b.count)` uses a boolean
  comparator (coerced to 0 or 1, never negative), so the ECMAScript
  standard leaves the resulting order implementation-defined; the only
  engine-independent guarantee is that the result is a permutation of
  the input.  The embedding therefore takes the sort step as an explicit
  parameter `sortImpl`, and theorems either hold for every permuting
  `sortImpl` or evaluate concrete engine behaviours: `jsSortLegacy`, the
  stable descending insertion sort the pre-TimSort V8 engines of the
  package's era produce on arrays of at most ten elements, and
  `jsSortModern`, the identity that TimSort's binary insertion produces
  on short arrays when the comparator never returns a negative number.
* Numeric scores are `Rat`: JavaScript numbers here are exact small
  rationals (integers and the literal `0.5`), far from any floating
  point rounding.
-/

/-- A filesystem tree.  A directory carries its child entries as a list of
(name, node) pairs in `readdirSync` order; file contents are irrelevant to
path resolution. -/
inductive FSNode where
  | file : FSNode
  | dir : List (String × FSNode) → FSNode

/-- Model of `fs.statSync(p).isFile()`. -/
def FSNode.isFile : FSNode → Bool
  | .file => true
  | .dir _ => false

/-- Model of `fs.statSync(p).isDirectory()`. -/
def FSNode.isDir : FSNode → Bool
  | .file => false
  | .dir _ => true

/-- The structural failures `locateFilePath` can throw: an intermediate
path segment with no matching entry, a matched entry that is not a
directory, or `readdirSync` applied to a non-directory. -/
inductive LookupError where
  | notFound : String → String → LookupError
  | notDirectory : String → LookupError
  | readdirFailed : String → LookupError
deriving DecidableEq, Repr

/-- Model of Node's `path.join(a, b)` for the normalised arguments this
program produces (entry names contain no separator; `a` has no trailing
slash): the result drops a `"."` or empty left component, otherwise
concatenates with `/`. -/
def pathJoin (a b : String) : String :=
  if a = "." ∨ a = "" then b else a ++ "/" ++ b

/-- Splits a character list at the first occurrence of `sep`, returning
the pieces before and after it, or `none` when `sep` does not occur. -/
def splitFirst (sep : Char) : List Char → Option (List Char × List Char)
  | [] => none
  | c :: cs =>
      if c = sep then some ([], cs)
      else (splitFirst sep cs).map (fun p => (c :: p.1, p.2))

/-- Splits a character list at the last occurrence of `sep`, returning
the pieces before and after it, or `none` when `sep` does not occur. -/
def splitLast (sep : Char) : List Char → Option (List Char × List Char)
  | [] => none
  | c :: cs =>
      match splitLast sep cs with
      | some p => some (c :: p.1, p.2)
      | none => if c = sep then some ([], cs) else none

/-- Model of `String.prototype.split(sep)` for a one-character separator:
always returns at least one (possibly empty) piece. -/
def splitAll (sep : Char) : List Char → List (List Char)
  | [] => [[]]
  | c :: cs =>
      match splitAll sep cs with
      | [] => [[]]
      | g :: gs => if c = sep then [] :: g :: gs else (c :: g) :: gs

/-- Model of `querystring.parse`: split on `&`, drop empty pieces, and
split each piece at its first `=` (a piece without `=` maps to the empty
string).  Percent-decoding is not modelled. -/
def parseQS (s : List Char) : List (String × String) :=
  ((splitAll '&' s).filter (fun p => !p.isEmpty)).map (fun part =>
    match splitFirst '=' part with
    | none => (⟨part⟩, "")
    | some p => (⟨p.1⟩, ⟨p.2⟩))

/-- The record `parseFilename` builds from one directory entry: the
fields of Node's `path.parse` (`dir`, `base`, `name`, `ext`) plus the
`nameStripped` and `query` fields the program adds. -/
structure ParsedFile where
  dir : String
  base : String
  name : String
  ext : String
  nameStripped : String
  query : List (String × String)
deriving DecidableEq, Repr

/-- Model of `parseFilename`: returns `none` for a filename whose first
character is `.` (the hidden-file check, applied to the full joined path
exactly as in the source), otherwise splits off `dir`/`base` at the last
slash, `name`/`ext` at the last non-leading dot of the base, and parses
the part of `name` after its first `?` as a query string. -/
def parseFilename (filename : String) : Option ParsedFile :=
  if filename.data.head? = some '.' then
    none
  else
    let cs := filename.data
    let db := match splitLast '/' cs with
      | none => (([] : List Char), cs)
      | some p => p
    let ne := match db.2 with
      | [] => (([] : List Char), ([] : List Char))
      | c :: rest =>
          match splitLast '.' rest with
          | none => (c :: rest, ([] : List Char))
          | some p => (c :: p.1, '.' :: p.2)
    let parts := splitAll '?' ne.1
    let query := match parts[1]? with
      | none => []
      | some qs => parseQS qs
    some { dir := ⟨db.1⟩, base := ⟨db.2⟩, name := ⟨ne.1⟩, ext := ⟨ne.2⟩,
           nameStripped := ⟨parts.headD []⟩, query := query }

/-- Model of `pathLib.format` on a record produced by `path.parse`: the
`dir` and `base` fields are untouched by the program, so format
recombines them (`dir + "/" + base`, or just `base` when `dir` is
empty). -/
def pathFormat (f : ParsedFile) : String :=
  if f.dir = "" then f.base else f.dir ++ "/" ++ f.base

/-- Model of the object lookup `matching[key]` on a query map: the value
at the first matching key, or `none` when the key is absent. -/
def qget (m : List (String × String)) (key : String) : Option String :=
  (m.find? (fun e => e.1 == key)).map (fun e => e.2)

/-- The `for (let key in actual)` loop of `fuzzyEqual`: walks the request
keys, skips a key whose candidate value is absent or falsy (the empty
string), returns `none` (the JS early `return -1`) on a present truthy
value that differs, and otherwise counts the matches. -/
def fuzzyLoop (matching : List (String × String)) : List (String × String) → Option Nat
  | [] => some 0
  | (key, av) :: rest =>
      match qget matching key with
      | none => fuzzyLoop matching rest
      | some mv =>
          if mv = "" then fuzzyLoop matching rest
          else if mv ≠ av then none
          else (fuzzyLoop matching rest).map (fun n => n + 1)

/-- JavaScript whitespace trimming (`ToNumber` trims before parsing);
only the common whitespace characters are modelled. -/
def jsTrim (l : List Char) : List Char :=
  ((l.dropWhile (fun c => c = ' ' ∨ c = '\t' ∨ c = '\n' ∨ c = '\r')).reverse.dropWhile
    (fun c => c = ' ' ∨ c = '\t' ∨ c = '\n' ∨ c = '\r')).reverse

/-- Whether a trimmed, unsigned character sequence is a decimal numeric
literal of value zero: nonempty, not a bare dot, at most one dot, and
every character a `0` or a dot.  Exponent and hex forms (which cannot
change zero-ness for the key names that occur here) are not modelled. -/
def jsZeroLiteral (l : List Char) : Bool :=
  !l.isEmpty && !(l == ['.']) && l.all (fun c => c == '0' || c == '.') &&
    decide ((l.filter (fun c => c == '.')).length ≤ 1)

/-- Model of the Array.prototype.join step of coercion. -/
def joinWithComma : List String → List Char
  | [] => []
  | [k] => k.data
  | k :: ks => k.data ++ ',' :: joinWithComma ks

/-- Model of the JavaScript loose comparison `Object.keys(matching) == 0`
in `fuzzyEqual`: the key array is coerced to its comma-joined string and
compared numerically with `0`, which holds exactly when the joined string
trims to the empty string or to a (possibly signed) numeric literal of
value zero. -/
def jsArrayEqZero (keys : List String) : Bool :=
  let t := jsTrim (joinWithComma keys)
  let u := match t with
    | '+' :: r => r
    | '-' :: r => r
    | r => r
  t.isEmpty || jsZeroLiteral u

/-- Model of `fuzzyEqual(actual, matching)`: `actual` is the request's
query (`none` for a falsy argument), `matching` the candidate's parsed
query.  Returns the match count as a rational, `-1` as the exclusion
sentinel, and applies the over-specificity penalty with the `0.5`
floor. -/
def fuzzyEqual (actual : Option (List (String × String))) (matching : List (String × String)) : Rat :=
  match actual with
  | none =>
      if jsArrayEqZero (matching.map (fun e => e.1)) then 0 else -1
  | some aq =>
      match fuzzyLoop matching aq with
      | none => -1
      | some matchCount =>
          if 0 < matchCount ∧ aq.length < matching.length then
            max ((matchCount : Rat) - ((matching.length : Rat) - (aq.length : Rat))) ((1 : Rat) / 2)
          else (matchCount : Rat)

/-- Model of the helper `match(pathFragment, currentDirectory)`: lists the
current directory and finds an entry whose name equals the fragment
byte-exactly, throwing when none does (`readdirSync` itself throws on a
non-directory).  The found entry's node stands in for the later
`statSync` on the joined path. -/
def matchSeg (pathFragment : String) (position : String) (node : FSNode) : Except LookupError (String × FSNode) :=
  match node with
  | .file => .error (.readdirFailed position)
  | .dir es =>
      match es.find? (fun e => e.1 == pathFragment) with
      | none => .error (.notFound pathFragment position)
      | some e => .ok e

/-- The `while (path.length > 1)` loop of `locateFilePath`: consumes
intermediate segments, descending through name-matched entries and
checking each is a directory; stops with at most one segment left,
returning the terminal node, its path string, and the remaining
segments. -/
def walkDirs : FSNode → String → List String → Except LookupError (FSNode × String × List String)
  | node, position, seg :: seg2 :: rest =>
      match matchSeg seg position node with
      | .error e => .error e
      | .ok e =>
          if e.2.isDir then walkDirs e.2 (pathJoin position e.1) (seg2 :: rest)
          else .error (.notDirectory (pathJoin position e.1))
  | node, position, segs => .ok (node, position, segs)

/-- Model of the path preparation in `locateFilePath`: strip one leading
slash, then split on `/`. -/
def jsSplitPath (path : String) : List String :=
  let p := if path.data.head? = some '/' then path.data.drop 1 else path.data
  (splitAll '/' p).map (fun l => (⟨l⟩ : String))

/-- The candidate-construction stage of `locateFilePath`: join each entry
name onto the terminal directory's path, keep plain files, and parse each
joined filename (dropping hidden-excluded ones). -/
def candidatesOf (es : List (String × FSNode)) (position : String) : List ParsedFile :=
  ((es.map (fun e => (pathJoin position e.1, e.2))).filter (fun p => p.2.isFile)).filterMap
    (fun p => parseFilename p.1)

/-- The name filter of `locateFilePath`: keep candidates whose stripped
name equals the final path segment (`path[path.length - 1]`, which is
absent when no segment remains). -/
def potentialOf (cands : List ParsedFile) (leaf? : Option String) : List ParsedFile :=
  cands.filter (fun f => some f.nameStripped == leaf?)

/-- The scoring stage of `locateFilePath`: pair every name-matching
candidate with its fuzzy score and drop those scoring `-1`. -/
def scoreCandidates (queryParams : Option (List (String × String))) (potential : List ParsedFile) :
    List (ParsedFile × Rat) :=
  (potential.map (fun m => (m, fuzzyEqual queryParams m.query))).filter
    (fun m => !(m.2 == -1))

/-- One insertion step of `jsSortLegacy`: the element moves left past
strictly smaller counts, as the shift loop of the old V8 insertion sort
does with the boolean comparator. -/
def insertDescLegacy (x : ParsedFile × Rat) : List (ParsedFile × Rat) → List (ParsedFile × Rat)
  | [] => [x]
  | y :: ys => if y.2 < x.2 then x :: y :: ys else y :: insertDescLegacy x ys

/-- The order `.sort((a, b) => a.count < b.count)` produces on the
pre-TimSort V8 engines of the package's era for arrays of at most ten
elements (their insertion-sort path): a stable sort by descending count.
For longer arrays even those engines take a quicksort path that does not
produce this order, so this function is used only on the short concrete
candidate lists evaluated in the theorems below, where it is exact. -/
def jsSortLegacy (l : List (ParsedFile × Rat)) : List (ParsedFile × Rat) :=
  l.foldl (fun acc x => insertDescLegacy x acc) []

/-- The order `.sort((a, b) => a.count < b.count)` produces on V8's
TimSort (Node 11 and later) for short arrays: the comparator never
returns a negative number, so binary insertion leaves every element in
place and the sort is the identity. -/
def jsSortModern (l : List (ParsedFile × Rat)) : List (ParsedFile × Rat) := l

/-- Model of `locateFilePath(path, queryParams, root)` over a filesystem
snapshot: walks the intermediate segments, builds and scores the
candidates of the terminal directory, sorts the kept candidates with the
implementation-defined sort step `sortImpl` (see the header note), and
returns the formatted path of the first element of the sorted list;
`.ok none` is the JS `undefined` (NoMatch) result and `.error` a thrown
lookup failure. -/
def locateFilePath (sortImpl : List (ParsedFile × Rat) → List (ParsedFile × Rat))
    (path : String) (queryParams : Option (List (String × String)))
    (root : String) (fsys : FSNode) : Except LookupError (Option String) :=
  match walkDirs fsys root (jsSplitPath path) with
  | .error e => .error e
  | .ok (node, position, rest) =>
      match node with
      | .file => .error (.readdirFailed position)
      | .dir es =>
          match sortImpl (scoreCandidates queryParams (potentialOf (candidatesOf es position) rest.getLast?)) with
          | [] => .ok none
          | best :: _ => .ok (some (pathFormat best.1))

/-- What the middleware does with one request: fall through to the next
handler, or respond with the parsed data. -/
inductive Outcome where
  | callNext : Outcome
  | respond : String → Outcome
deriving DecidableEq, Repr

/-- Model of the request handler returned by `serveLocally`: resolution
errors are swallowed by the `try/catch`, a falsy file path (absent or
empty) falls through to `next()`, and the read (`fs.readFile`) and JSON
parse steps — modelled as oracle functions returning `none` on failure —
each fall through on failure; only full success responds.  Parametric in
the same implementation-defined sort step as `locateFilePath`. -/
def serveLocallyHandler (sortImpl : List (ParsedFile × Rat) → List (ParsedFile × Rat))
    (reqPath : String) (reqQuery : Option (List (String × String)))
    (root : String) (fsys : FSNode)
    (readFile : String → Option String) (parseJson : String → Option String) : Outcome :=
  let filePath : Option String :=
    match locateFilePath sortImpl reqPath reqQuery root fsys with
    | .error _ => none
    | .ok r => r
  match filePath with
  | none => .callNext
  | some fp =>
      if fp = "" then .callNext
      else
        match readFile fp with
        | none => .callNext
        | some data =>
            match parseJson data with
            | none => .callNext
            | some j => .respond j

/-- The ways the intermediate-segment walk can fail structurally: some
non-leaf segment has no byte-exact name match in the directory reached so
far, or its match is not a directory. -/
inductive WalkFails : FSNode → List String → Prop
  | stuckNone (es : List (String × FSNode)) (s : String) (rest : List String) :
      rest ≠ [] → es.find? (fun e => e.1 == s) = none → WalkFails (.dir es) (s :: rest)
  | stuckFile (es : List (String × FSNode)) (s : String) (rest : List String)
      (nm : String) (sub : FSNode) :
      rest ≠ [] → es.find? (fun e => e.1 == s) = some (nm, sub) → sub.isDir = false →
      WalkFails (.dir es) (s :: rest)
  | deeper (es : List (String × FSNode)) (s : String) (rest : List String)
      (nm : String) (sub : FSNode) :
      rest ≠ [] → es.find? (fun e => e.1 == s) = some (nm, sub) → sub.isDir = true →
      WalkFails sub rest → WalkFails (.dir es) (s :: rest)

theorem walkFails_error (t : FSNode) (segs : List String) (h : WalkFails t segs) :
    ∀ pos : String, ∃ e, walkDirs t pos segs = .error e := by
  induction h with
  | stuckNone es s rest hrest hfind =>
      intro pos
      match rest, hrest with
      | r :: rs, _ =>
          exact ⟨.notFound s pos, by simp [walkDirs, matchSeg, hfind]⟩
  | stuckFile es s rest nm sub hrest hfind hdir =>
      intro pos
      match rest, hrest with
      | r :: rs, _ =>
          exact ⟨.notDirectory (pathJoin pos nm), by simp [walkDirs, matchSeg, hfind, hdir]⟩
  | deeper es s rest nm sub hrest hfind hdir hfail ih =>
      intro pos
      match rest, hrest with
      | r :: rs, _ =>
          obtain ⟨e, he⟩ := ih (pathJoin pos nm)
          exact ⟨e, by simp [walkDirs, matchSeg, hfind, hdir, he]⟩

/-- C5: for a request path with at least two segments, if some
intermediate (non-leaf) segment has no byte-exact name match in the
directory reached so far, or its match is not a directory, then
`locateFilePath` fails with a `LookupError` — a thrown failure that is a
different value from every `.ok` result, in particular from the `NoMatch`
result `.ok none` of a structurally valid path. -/
theorem claim_C5 (sortImpl : List (ParsedFile × Rat) → List (ParsedFile × Rat))
    (path : String) (q : Option (List (String × String))) (root : String)
    (t : FSNode) (_hlen : 2 ≤ (jsSplitPath path).length)
    (hfail : WalkFails t (jsSplitPath path)) :
    ∃ e, locateFilePath sortImpl path q root t = .error e ∧
      ∀ r : Option String, (Except.error e : Except LookupError (Option String)) ≠ .ok r := by
  obtain ⟨e, he⟩ := walkFails_error t _ hfail root
  refine ⟨e, ?_, ?_⟩
  · simp [locateFilePath, he]
  · intro r h
    cases h

/-- C5 witness: a two-segment path whose first segment matches nothing in
an empty root directory produces a `LookupError`, under either engine
behaviour of the sort (it is never reached). -/
theorem claim_C5_witness :
    ∃ e, locateFilePath jsSortModern "/a/b" none "r" (.dir []) = .error e ∧
      ∀ r : Option String, (Except.error e : Except LookupError (Option String)) ≠ .ok r :=
  claim_C5 jsSortModern "/a/b" none "r" (.dir []) (by decide)
    (WalkFails.stuckNone [] "a" ["b"] (by decide) rfl)

/-- C6: for a structurally valid request path (the intermediate-segment
walk reaches a terminal directory) in which no plain-file entry of the
terminal directory parses to a candidate whose stripped name equals the
leaf segment, `locateFilePath` returns the `NoMatch` result `.ok none`
rather than an error — for every sort step that, as `Array.prototype.sort`
guarantees on every conforming engine, permutes its input. -/
theorem claim_C6 (sortImpl : List (ParsedFile × Rat) → List (ParsedFile × Rat))
    (path : String) (q : Option (List (String × String))) (root : String)
    (t : FSNode) (es : List (String × FSNode)) (pos : String) (rest : List String)
    (hperm : ∀ l, (sortImpl l).Perm l)
    (hwalk : walkDirs t root (jsSplitPath path) = .ok (.dir es, pos, rest))
    (hnone : ∀ nm sub, (nm, sub) ∈ es → sub.isFile = true →
      ∀ pf, parseFilename (pathJoin pos nm) = some pf → some pf.nameStripped ≠ rest.getLast?) :
    locateFilePath sortImpl path q root t = .ok none := by
  have hpot : potentialOf (candidatesOf es pos) rest.getLast? = [] := by
    rw [potentialOf, List.filter_eq_nil_iff]
    intro f hf
    simp only [candidatesOf, List.mem_filterMap, List.mem_filter, List.mem_map] at hf
    obtain ⟨⟨full, sub⟩, ⟨⟨⟨nm, sub2⟩, hmem, heq⟩, hfile⟩, hparse⟩ := hf
    obtain ⟨h1, h2⟩ := Prod.mk.injEq .. ▸ heq
    subst h1 h2
    simpa using hnone nm sub2 hmem hfile f hparse
  have hsnil : sortImpl (scoreCandidates q (potentialOf (candidatesOf es pos) rest.getLast?)) = [] := by
    rw [hpot]
    exact List.Perm.eq_nil (by simpa [scoreCandidates] using hperm [])
  simp [locateFilePath, hwalk, hsnil]

/-- C6 witness: a valid single-segment path whose terminal directory
holds only a file with a different stripped name yields `.ok none`. -/
theorem claim_C6_witness :
    locateFilePath jsSortModern "/resource" none "r" (.dir [("other.json", .file)]) = .ok none := by
  refine claim_C6 jsSortModern "/resource" none "r" (.dir [("other.json", .file)])
    [("other.json", .file)] "r" ["resource"] (fun l => List.Perm.refl l) rfl ?_
  intro nm sub hmem hfile pf hpf
  simp only [List.mem_singleton, Prod.mk.injEq] at hmem
  obtain ⟨rfl, rfl⟩ := hmem
  rw [show parseFilename (pathJoin "r" "other.json") =
    some ⟨"r", "other.json", "other", ".json", "other", []⟩ from rfl,
    Option.some.injEq] at hpf
  subst hpf
  decide

/-- C8: resolving the same request path and query against the same
filesystem snapshot twice gives the same result; the resolver reads no
state other than its arguments, so within one engine (one fixed, itself
deterministic `sortImpl`) the result is a function of
(path, query, root, tree) alone. -/
theorem claim_C8 (sortImpl : List (ParsedFile × Rat) → List (ParsedFile × Rat))
    (path : String) (q : Option (List (String × String))) (root : String)
    (t1 t2 : FSNode) (h : t1 = t2) :
    locateFilePath sortImpl path q root t1 = locateFilePath sortImpl path q root t2 := by
  rw [h]

/-- C8 witness: two runs on a concrete unchanged tree agree. -/
theorem claim_C8_witness :
    locateFilePath jsSortModern "/resource" none "r" (.dir [("resource.json", .file)]) =
      locateFilePath jsSortModern "/resource" none "r" (.dir [("resource.json", .file)]) :=
  claim_C8 jsSortModern "/resource" none "r" (.dir [("resource.json", .file)])
    (.dir [("resource.json", .file)]) rfl

/-- C1: evaluation of the code at the Scenario 3 input (query
`a=1, b=2, clientId=a1b2c34d` against `resource?a=1.json`,
`resource?a=1&b=not2.json`, `resource?a=1&b=2.json` in readdir order)
under the two engine behaviours of the implementation-defined sort.  The
comparator `(a, b) => a.count < b.count` returns a boolean and is never
negative, so on V8's TimSort (Node 11 and later, within the declared
"Node 5.6.x and above" support) the sort leaves the kept candidates in
readdir order and the program returns `resource?a=1.json` — not the
highest-scoring `resource?a=1&b=2.json` that the claim, the spec, the
source's own header comment ("the filename with the most matches is
selected") and the repository's test expectations all state; only the
legacy short-array insertion sort yields the claimed file. -/
theorem claim_C1_eval :
    locateFilePath jsSortModern "/resource"
        (some [("a", "1"), ("b", "2"), ("clientId", "a1b2c34d")]) "r"
        (.dir [("resource?a=1.json", .file), ("resource?a=1&b=not2.json", .file),
               ("resource?a=1&b=2.json", .file)]) =
      .ok (some "r/resource?a=1.json") ∧
    locateFilePath jsSortLegacy "/resource"
        (some [("a", "1"), ("b", "2"), ("clientId", "a1b2c34d")]) "r"
        (.dir [("resource?a=1.json", .file), ("resource?a=1&b=not2.json", .file),
               ("resource?a=1&b=2.json", .file)]) =
      .ok (some "r/resource?a=1&b=2.json") :=
  ⟨rfl, rfl⟩

/-- C2 counterexample: the claim quantifies over every candidate value
differing from the request's value, but a candidate whose recorded value
is the empty string (here `resource?a=.json` against request `a=1`) is
skipped by the falsy-value check rather than excluded: it scores `0`, not
`-1`, and is the returned file (the kept list is a singleton, so this
holds under either engine behaviour of the sort). -/
theorem claim_C2_counterexample :
    fuzzyEqual (some [("a", "1")]) [("a", "")] = 0 ∧
    locateFilePath jsSortLegacy "/resource" (some [("a", "1")]) "r"
        (.dir [("resource?a=.json", .file)]) =
      .ok (some "r/resource?a=.json") ∧
    locateFilePath jsSortModern "/resource" (some [("a", "1")]) "r"
        (.dir [("resource?a=.json", .file)]) =
      .ok (some "r/resource?a=.json") := by
  refine ⟨by decide, rfl, rfl⟩

/-- C2 amended: a candidate whose parsed query contains some request key
with a non-empty value different from the request's value is scored `-1`
by `fuzzyEqual`, and no candidate with that query survives the scoring
filter, so it is never the selected candidate. -/
theorem claim_C2_amended (aq cq : List (String × String)) (k v mv : String)
    (hmem : (k, v) ∈ aq) (hget : qget cq k = some mv) (hne : mv ≠ "") (hnev : mv ≠ v) :
    fuzzyEqual (some aq) cq = -1 ∧
    ∀ (pot : List ParsedFile) (c : ParsedFile), c.query = cq →
      ∀ r : Rat, (c, r) ∉ scoreCandidates (some aq) pot := by
  have hloop : fuzzyLoop cq aq = none := by
    induction aq with
    | nil => cases hmem
    | cons p rest ih =>
        obtain ⟨k1, v1⟩ := p
        rcases List.mem_cons.1 hmem with heq | hmem2
        · obtain ⟨rfl, rfl⟩ := Prod.mk.injEq .. ▸ heq
          simp [fuzzyLoop, hget, hne, hnev]
        · have hrec := ih hmem2
          simp only [fuzzyLoop]
          cases hq : qget cq k1 with
          | none => exact hrec
          | some m2 =>
              by_cases hm2 : m2 = ""
              · simp [hm2, hrec]
              · by_cases hm2v : m2 ≠ v1
                · simp [hm2, hm2v]
                · simp [hm2, hm2v, hrec]
  refine ⟨by simp [fuzzyEqual, hloop], ?_⟩
  intro pot c hcq r hr
  simp only [scoreCandidates, List.mem_filter, List.mem_map] at hr
  obtain ⟨⟨m, _hm, heq⟩, hfilt⟩ := hr
  obtain ⟨rfl, rfl⟩ := Prod.mk.injEq .. ▸ heq
  rw [hcq] at hfilt
  rw [show fuzzyEqual (some aq) cq = -1 from by simp [fuzzyEqual, hloop]] at hfilt
  simp at hfilt

/-- C2 amended witness: request `a=1` against candidate query `a=2`. -/
theorem claim_C2_amended_witness :
    fuzzyEqual (some [("a", "1")]) [("a", "2")] = -1 :=
  (claim_C2_amended [("a", "1")] [("a", "2")] "a" "1" "2" (by decide) rfl (by decide)
    (by decide)).1

/-- C3: evaluation of the code at the failing input of the key-coercion
slip.  The candidate `resource?0=1.json` has a non-empty parsed query but
is scored `0` (not `-1`) against a request with no query parameters,
because `Object.keys(matching) == 0` coerces the key array to a string
and compares it numerically, and is returned; on a key list such as
`x=1` the coercion is false, the candidate scores `-1` and the result is
`NoMatch`, as the claim states. -/
theorem claim_C3_eval :
    fuzzyEqual none [("0", "1")] = 0 ∧
    locateFilePath jsSortLegacy "/resource" none "r" (.dir [("resource?0=1.json", .file)]) =
      .ok (some "r/resource?0=1.json") ∧
    locateFilePath jsSortModern "/resource" none "r" (.dir [("resource?0=1.json", .file)]) =
      .ok (some "r/resource?0=1.json") ∧
    fuzzyEqual none [("x", "1")] = -1 ∧
    locateFilePath jsSortLegacy "/resource" none "r" (.dir [("resource?x=1.json", .file)]) =
      .ok none ∧
    locateFilePath jsSortModern "/resource" none "r" (.dir [("resource?x=1.json", .file)]) =
      .ok none := by
  refine ⟨by decide, rfl, rfl, by decide, rfl, rfl⟩

/-- C4: when the loop over the request keys completes with match count
`m`, the final score is `max (m - (candidateKeys - requestKeys)) 0.5`
when `m` is positive and the candidate has strictly more keys than the
request, and is `m` unchanged when `m = 0` or there is no key excess. -/
theorem claim_C4 (aq cq : List (String × String)) (m : Nat)
    (hloop : fuzzyLoop cq aq = some m) :
    (0 < m → aq.length < cq.length →
      fuzzyEqual (some aq) cq =
        max ((m : Rat) - ((cq.length : Rat) - (aq.length : Rat))) ((1 : Rat) / 2)) ∧
    (m = 0 ∨ cq.length ≤ aq.length → fuzzyEqual (some aq) cq = (m : Rat)) := by
  constructor
  · intro h1 h2
    simp [fuzzyEqual, hloop, h1, h2]
  · intro h
    simp only [fuzzyEqual, hloop]
    rw [if_neg]
    rintro ⟨hpos, hlt⟩
    rcases h with rfl | hle
    · exact absurd hpos (lt_irrefl 0)
    · exact absurd hlt (not_lt.2 hle)

/-- C4 witness: request `a=1` against candidate `a=1&b=2`: one matched
key, one excess key, so the score is `max (1 - 1) 0.5 = 0.5`. -/
theorem claim_C4_witness :
    fuzzyEqual (some [("a", "1")]) [("a", "1"), ("b", "2")] = (1 : Rat) / 2 :=
  ((claim_C4 [("a", "1")] [("a", "1"), ("b", "2")] 1 rfl).1 (by decide) (by decide)).trans
    (by norm_num)

theorem candidatesOf_cons (e : String × FSNode) (es : List (String × FSNode)) (pos : String) :
    candidatesOf (e :: es) pos =
      (if e.2.isFile then (parseFilename (pathJoin pos e.1)).toList else []) ++
        candidatesOf es pos := by
  simp only [candidatesOf, List.map_cons, List.filter_cons]
  by_cases h : e.2.isFile
  · simp only [h, if_true, List.filterMap_cons]
    cases parseFilename (pathJoin pos e.1) <;> simp
  · simp [h]

/-- C7 counterexample: the hidden-file check of `parseFilename` runs on
the joined path, not on the entry name, so with root `r` the dot-named
entry `.hidden.json` of the terminal directory is a candidate and is the
returned file (a singleton candidate list, so under either engine
behaviour of the sort) — contradicting that a dot-named entry is never
returned regardless of the configured root. -/
theorem claim_C7_counterexample :
    ".hidden.json".data.head? = some '.' ∧
    locateFilePath jsSortLegacy "/.hidden" none "r" (.dir [(".hidden.json", .file)]) =
      .ok (some "r/.hidden.json") ∧
    locateFilePath jsSortModern "/.hidden" none "r" (.dir [(".hidden.json", .file)]) =
      .ok (some "r/.hidden.json") :=
  ⟨rfl, rfl, rfl⟩

/-- C7 amended: an entry of the terminal directory is excluded from
candidacy exactly when its joined path (terminal directory position
joined with the entry name) begins with a dot; dropping exactly those
entries leaves the candidate list unchanged.  An entry whose own name
begins with a dot is therefore excluded only when the join makes the
full path dot-initial (for example when the position is `.`). -/
theorem claim_C7_amended :
    (∀ position name, parseFilename (pathJoin position name) = none ↔
      (pathJoin position name).data.head? = some '.') ∧
    ∀ (es : List (String × FSNode)) (position : String),
      candidatesOf es position =
        candidatesOf
          (es.filter (fun e => !((pathJoin position e.1).data.head? == some '.'))) position := by
  have hiff : ∀ f : String, parseFilename f = none ↔ f.data.head? = some '.' := by
    intro f
    constructor
    · intro h
      by_contra hne
      simp [parseFilename, hne] at h
    · intro h
      simp [parseFilename, h]
  refine ⟨fun pos nm => hiff _, ?_⟩
  intro es pos
  induction es with
  | nil => rfl
  | cons e es ih =>
      rw [List.filter_cons]
      by_cases h : (pathJoin pos e.1).data.head? = some '.'
      · have hp : parseFilename (pathJoin pos e.1) = none := (hiff _).2 h
        have hcond : (!((pathJoin pos e.1).data.head? == some '.')) = false := by
          simp [h]
        rw [hcond, if_neg (by simp), candidatesOf_cons, hp, ih]
        simp
      · have hcond : (!((pathJoin pos e.1).data.head? == some '.')) = true := by
          simp [h]
        rw [hcond, if_pos rfl, candidatesOf_cons, candidatesOf_cons, ih]

/-- C7 amended witness: with terminal position `.` the joined path of a
dot-named entry is dot-initial, and the exclusion criterion holds. -/
theorem claim_C7_amended_witness :
    parseFilename (pathJoin "." ".hidden.json") = none ↔
      (pathJoin "." ".hidden.json").data.head? = some '.' :=
  claim_C7_amended.1 "." ".hidden.json"

/-- C9: the middleware returned by `serveLocally` maps every request to
either a fall-through to the next handler or a response; a resolution
error (swallowed by its try/catch) always falls through; and a response
is produced only when resolution yields a non-empty path and both the
read and the JSON parse succeed on it.  This holds for every sort step,
so for every engine behaviour of the implementation-defined sort. -/
theorem claim_C9 (sortImpl : List (ParsedFile × Rat) → List (ParsedFile × Rat))
    (p : String) (q : Option (List (String × String))) (root : String)
    (t : FSNode) (rf pj : String → Option String) :
    (serveLocallyHandler sortImpl p q root t rf pj = .callNext ∨
      ∃ d, serveLocallyHandler sortImpl p q root t rf pj = .respond d) ∧
    (∀ e, locateFilePath sortImpl p q root t = .error e →
      serveLocallyHandler sortImpl p q root t rf pj = .callNext) ∧
    (∀ d, serveLocallyHandler sortImpl p q root t rf pj = .respond d →
      ∃ fp s, locateFilePath sortImpl p q root t = .ok (some fp) ∧ fp ≠ "" ∧
        rf fp = some s ∧ pj s = some d) := by
  refine ⟨?_, ?_, ?_⟩
  · cases serveLocallyHandler sortImpl p q root t rf pj
    · exact Or.inl rfl
    · exact Or.inr ⟨_, rfl⟩
  · intro e he
    simp [serveLocallyHandler, he]
  · intro d hd
    simp only [serveLocallyHandler] at hd
    cases hl : locateFilePath sortImpl p q root t with
    | error e => rw [hl] at hd; simp at hd
    | ok r =>
        rw [hl] at hd
        cases r with
        | none => simp at hd
        | some fp =>
            simp only at hd
            by_cases hfp : fp = ""
            · rw [if_pos hfp] at hd; simp at hd
            · rw [if_neg hfp] at hd
              cases hr : rf fp with
              | none => rw [hr] at hd; simp at hd
              | some s =>
                  rw [hr] at hd
                  simp only at hd
                  cases hpj : pj s with
                  | none => rw [hpj] at hd; simp at hd
                  | some j =>
                      rw [hpj] at hd
                      simp only at hd
                      have hj : j = d := by
                        cases hd
                        rfl
                      exact ⟨fp, s, rfl, hfp, hr, hj ▸ hpj⟩

/-- C9 witness: a request whose resolution throws a lookup error falls
through to the next handler. -/
theorem claim_C9_witness :
    serveLocallyHandler jsSortModern "/a/b" none "r" (.dir []) (fun _ => none) (fun _ => none) =
      .callNext :=
  (claim_C9 jsSortModern "/a/b" none "r" (.dir []) (fun _ => none) (fun _ => none)).2.1
    (.notFound "a" "r") rfl

/-- C10: a candidate value that is the empty string is falsy, so the loop
of `fuzzyEqual` treats the corresponding request key exactly as if the
candidate lacked it — removing that key from the request changes nothing,
so it neither contributes to the count nor triggers exclusion — and in
particular `resource?foo=.json` (candidate query `foo=`) scores `0`, not
`-1`, against a request carrying `foo=bar`. -/
theorem claim_C10 (cq : List (String × String)) (k : String) (hget : qget cq k = some "") :
    (∀ (aq1 aq2 : List (String × String)) (v : String),
      fuzzyLoop cq (aq1 ++ (k, v) :: aq2) = fuzzyLoop cq (aq1 ++ aq2)) ∧
    (parseFilename "r/resource?foo=.json").map (fun f => f.query) = some [("foo", "")] ∧
    fuzzyEqual (some [("foo", "bar")]) [("foo", "")] = 0 := by
  refine ⟨?_, rfl, by decide⟩
  intro aq1 aq2 v
  induction aq1 with
  | nil => simp [fuzzyLoop, hget]
  | cons p rest ih =>
      obtain ⟨k1, v1⟩ := p
      simp only [List.cons_append, fuzzyLoop, List.append_eq, ih]

/-- C10 witness: against candidate query `foo=`, a request consisting of
just `foo=bar` scores the same as the empty request. -/
theorem claim_C10_witness :
    fuzzyLoop [("foo", "")] [("foo", "bar")] = fuzzyLoop [("foo", "")] [] :=
  (claim_C10 [("foo", "")] "foo" rfl).1 [] [] "bar"
